import Mathlib

/-!
Verification of the cert-tracker hostname-resolution core.

The definitions below are a shallow embedding of the Go source:
`resolve`, `resolver` and `handle` from src/app/main.go (the same functions
appear, modulo configuration plumbing, in src/unnamed/part_003), and
`Hostname.UnmarshalJSON` / `Duration.UnmarshalJSON` from src/app/cfg/cfg.go
(src/unnamed/part_000).

Concurrency model.  `resolve` spawns one goroutine per hostname; each worker
writes exactly once to one of two buffered channels (`mappings` / `errors`),
and the main goroutine runs a `select` loop of exactly `len(hostnames)`
iterations whose third branch is the shared context deadline.  We embed the
scheduler nondeterminism as an explicit list of `Event`s: element `i` records
which branch the `select` took at iteration `i` and which value it received.
Go semantics constrain which schedules are realizable (an outcome event must
have been produced by a worker; the deadline branch is only ready once the
shared deadline has fired; when several branches are ready, `select` chooses
uniformly at random among them) — those constraints appear as hypotheses of
the theorems, while `resolve` itself is the deterministic function of the
schedule that mirrors the Go collection loop line by line.
-/

/-- Go `cfg.Hostname` (a defined string type). -/
abbrev Hostname := String

/-- Go `net.IP`, identified by its textual form (`IP.String()`). -/
abbrev IP := String

/-- Go `time.Duration` / `cfg.Duration` (an int64 nanosecond count). -/
abbrev Duration := Int

/-- Go `net.IPAddr`: an IP address with an optional zone. -/
structure IPAddr where
  ip : IP
  zone : String
deriving Repr, DecidableEq

/-- Go `IPAddr.String()`: the ip text, with `%zone` appended when a zone is set. -/
def IPAddr.str (a : IPAddr) : String :=
  if a.zone = "" then a.ip else a.ip ++ "%" ++ a.zone

/-- An error value returned by a `net.Resolver` lookup (Go `error`, abstract). -/
structure DNSError where
  msg : String
deriving Repr, DecidableEq

/-- Go struct `nameAddressMap` from src/app/main.go. -/
structure nameAddressMap where
  Hostname : Hostname
  IPAddresses : List IP
deriving Repr, DecidableEq

/-- One structured-log event emitted by the resolution engine.  Each
constructor corresponds to one log call site in `resolve` or its workers:
the message text, level and keys are fixed at the call site. -/
inductive LogEvent where
  /-- log.Warn "reverse lookup error" with key addr. -/
  | reverseLookupError (addr : String)
  /-- log.Info "reverse DNS lookup" with keys addr and ptr. -/
  | reverseDNSLookup (addr : String) (ptr : String)
  /-- log.Warn "all DNS lookups failed; logging only first error" with key error. -/
  | allLookupsFailedWarn (e : DNSError)
  /-- log.Debug "debug logging all DNS lookup errors" with key error. -/
  | lookupErrorDebug (e : DNSError)
deriving Repr, DecidableEq

/-- The lookup interface of Go `net.Resolver` as used by `resolve`:
`LookupIPAddr` and `LookupAddr` both return a slice together with an error
(`none` = nil).  The embedding treats the resolver as a deterministic oracle
for the duration of one pass. -/
structure Resolver where
  lookupIPAddr : String → List IPAddr × Option DNSError
  lookupAddr : String → List String × Option DNSError

/-- The value a worker goroutine sends on one of the two buffered channels:
a `nameAddressMap` on `mappings`, or an error on `errors`. -/
inductive Outcome where
  | success (m : nameAddressMap)
  | failure (e : DNSError)
deriving Repr, DecidableEq

/-- What one worker goroutine does, beyond its single channel send:
its log output and the reverse-lookup queries it issues (instrumentation
recording each `resolver.LookupAddr` call made). -/
structure WorkerRun where
  outcome : Outcome
  logs : List LogEvent
  revQueries : List String
deriving Repr, DecidableEq

/-- The body of the `for _, address := range ipAddrs` loop inside a worker:
append `address.IP` to the addresses, do the reverse lookup, log a warning on
reverse-lookup error, log one info line per PTR record. -/
def revStep (r : Resolver) (acc : List IP × List LogEvent × List String)
    (address : IPAddr) : List IP × List LogEvent × List String :=
  let addrs := acc.1 ++ [address.ip]
  let ptrsErr := r.lookupAddr address.str
  let logs1 :=
    match ptrsErr.2 with
    | some _ => acc.2.1 ++ [LogEvent.reverseLookupError address.str]
    | none => acc.2.1
  let logs2 := logs1 ++ ptrsErr.1.map (fun ptr => LogEvent.reverseDNSLookup address.str ptr)
  (addrs, logs2, acc.2.2 ++ [address.str])

/-- One worker goroutine of `resolve` (src/app/main.go lines 135–161):
forward-resolve the hostname; on error send the error and stop; on success
walk the returned addresses doing best-effort reverse lookups (log only),
then send the hostname paired with the forward-resolved addresses. -/
def worker (r : Resolver) (hostname : Hostname) : WorkerRun :=
  let looked := r.lookupIPAddr hostname
  match looked.2 with
  | some e => ⟨Outcome.failure e, [], []⟩
  | none =>
    let folded := looked.1.foldl (revStep r) ([], [], [])
    ⟨Outcome.success ⟨hostname, folded.1⟩, folded.2.1, folded.2.2⟩

/-- The outcomes the pass's workers produce, one per input hostname occurrence. -/
def outcomesOf (r : Resolver) (hostnames : List Hostname) : List Outcome :=
  hostnames.map (fun h => (worker r h).outcome)

/-- One iteration of the collection loop's `select`: which branch was taken
and what it received. -/
inductive Event where
  /-- the `mappings` or `errors` channel branch delivered a worker outcome. -/
  | outcome (o : Outcome)
  /-- the `ctx.Done()` branch was taken (only ready once the deadline fired). -/
  | deadline
deriving Repr, DecidableEq

/-- The error values `resolve` can return: `ctx.Err()` of an expired
`context.WithTimeout` context, or (hypothetically) a per-hostname DNS error. -/
inductive GoError where
  | ctxDeadlineExceeded
  | dnsErr (e : DNSError)
deriving Repr, DecidableEq

/-- The collection loop of `resolve` (src/app/main.go lines 164–175):
`for range hostnames` — exactly `n` iterations — selecting among the
`mappings` channel, the `errors` channel and `ctx.Done()`; the deadline
branch returns `nil, ctx.Err()` at once, discarding everything collected.
Arguments `results` and `errs` are the two accumulating slices. -/
def collectLoop : List Event → Nat → List nameAddressMap → List DNSError →
    List nameAddressMap × Option GoError × List DNSError
  | _, 0, results, errs => (results, none, errs)
  | [], _ + 1, results, errs => (results, none, errs)
  | Event.deadline :: _, _ + 1, _, _ => ([], some GoError.ctxDeadlineExceeded, [])
  | Event.outcome (Outcome.success m) :: rest, n + 1, results, errs =>
      collectLoop rest n (results ++ [m]) errs
  | Event.outcome (Outcome.failure e) :: rest, n + 1, results, errs =>
      collectLoop rest n results (errs ++ [e])

/-- The logging epilogue of `resolve` (src/app/main.go lines 177–188):
when there was at least one error and no result, warn with the first error
and debug-log every error. -/
def endLogs : List nameAddressMap → List DNSError → List LogEvent
  | [], e :: es => LogEvent.allLookupsFailedWarn e :: (e :: es).map LogEvent.lookupErrorDebug
  | _, _ => []

/-- What `resolve` returns and logs: the mapping slice, the error
(`none` = nil), and the log events emitted by the collection epilogue. -/
structure ResolveRet where
  mappings : List nameAddressMap
  error : Option GoError
  logs : List LogEvent
deriving Repr, DecidableEq

/-- Embeds `resolve` from src/app/main.go lines 127–191 (identically
src/unnamed/part_003 lines 150–214) as a function of the `select` schedule
`evs`; the worker goroutines it spawns are embedded separately by `worker`,
and the hypotheses of the theorems tie `evs` to the workers' outcomes. -/
def resolve (hostnames : List Hostname) (evs : List Event) : ResolveRet :=
  let collected := collectLoop evs hostnames.length [] []
  match collected.2.1 with
  | some e => ⟨[], some e, []⟩
  | none => ⟨collected.1, none, endLogs collected.1 collected.2.2⟩

/-- Under an effectively-zero timeout the shared context is already expired
when every worker starts, so `LookupIPAddr` fails at once: the only events a
schedule can contain are failure outcomes and the deadline branch. -/
def zeroTimeoutEvent : Event → Bool
  | Event.outcome (Outcome.failure _) => true
  | Event.outcome (Outcome.success _) => false
  | Event.deadline => true

/-- The mapping carried by a success event, if any. -/
def eventMapping : Event → Option nameAddressMap
  | Event.outcome (Outcome.success m) => some m
  | _ => none

/-- The error carried by a failure event, if any. -/
def eventErr : Event → Option DNSError
  | Event.outcome (Outcome.failure e) => some e
  | _ => none

/-- The mapping carried by a success outcome, if any. -/
def outcomeMapping : Outcome → Option nameAddressMap
  | Outcome.success m => some m
  | _ => none

/-- The error carried by a failure outcome, if any. -/
def outcomeErr : Outcome → Option DNSError
  | Outcome.failure e => some e
  | _ => none

/-- A complete, deadline-free schedule: the collection loop received every
worker's outcome, in some arrival order, and never took the deadline branch. -/
def CompleteSchedule (r : Resolver) (hostnames : List Hostname)
    (evs : List Event) : Prop :=
  evs.Perm ((outcomesOf r hostnames).map Event.outcome)

/-- Go `net.JoinHostPort`: combines host and port into host:port, wrapping
the host in square brackets when it contains a colon (IPv6 literal). -/
def joinHostPort (host port : String) : String :=
  if host.toList.contains ':' then "[" ++ host ++ "]:" ++ port else host ++ ":" ++ port

/-- The behavior of the `Dial` closure installed by the resolver factory:
the one `dialer.DialContext` call it makes, described by the dialer timeout,
the network, and the target address it actually dials. -/
structure DialCall where
  timeout : Duration
  network : String
  address : String
deriving Repr, DecidableEq

/-- Go `net.Resolver` as configured by the factory: the `PreferGo` flag and
the custom `Dial` function (a pure description of the dial it performs,
indexed by the network and address the runtime asks for). -/
structure NetResolver where
  preferGo : Bool
  dial : String → String → DialCall

/-- Embeds `resolver` from src/unnamed/part_003 lines 134–148 (identically
src/app/main.go lines 111–125, with the timeout read from the global
configuration instead of a parameter): pure construction of a `net.Resolver`
with `PreferGo: true` whose `Dial` ignores the runtime-requested address and
dials `JoinHostPort(dnsServer.String(), "53")` with the configured timeout. -/
def resolver (dnsServer : IP) (timeout : Duration) : NetResolver :=
  { preferGo := true,
    dial := fun network _address =>
      { timeout := timeout,
        network := network,
        address := joinHostPort dnsServer "53" } }

/-- Go `*x509.Certificate` as used by `handle`: only its `Raw` field (the DER
encoding, a byte slice — each element below 256) is consumed. -/
structure Certificate where
  raw : List Nat
deriving Repr, DecidableEq

/-- A value stored in the `map[string]any` that `handle` logs. -/
inductive LogValue where
  | host (h : Hostname)
  | addr (a : IP)
  | num (i : Int)
  | str (s : String)
deriving Repr, DecidableEq

/-- The lowercase hex alphabet of Go `encoding/hex` (its `hextable`). -/
def hexTable : List Char := "0123456789abcdef".toList

/-- Indexing into `hextable`; Go only ever indexes it with values below 16
(`b >> 4` and `b & 0x0f` of a byte), so the default is unreachable. -/
def hexDigit (n : Nat) : Char := hexTable.getD n '0'

/-- Go `hex.EncodeToString`: two lowercase hex digits per byte, high nibble
(`b / 16` = `b >> 4` for bytes) first, then low nibble (`b % 16` = `b & 0x0f`). -/
def hexEncodeToString (bs : List Nat) : String :=
  String.mk (bs.flatMap (fun b => [hexDigit (b / 16), hexDigit (b % 16)]))

/-- Embeds `handle` from src/app/main.go lines 90–109 (identically
src/unnamed/part_003 lines 113–132): the `map[string]any` of per-certificate
details logged at info level, rendered as its key-value entries.  The SHA-256
compression itself is Go `crypto/sha256` (external to the repository), passed
in as the function `sha256Sum`; `handle` hex-encodes its digest of the DER
bytes `cert.raw`. -/
def handle (sha256Sum : List Nat → List Nat) (cert : Certificate) (index : Int)
    (hostname : Hostname) (ipAddress : IP) : List (String × LogValue) :=
  [("hostname", LogValue.host hostname),
   ("ipAddress", LogValue.addr ipAddress),
   ("index", LogValue.num index),
   ("target", LogValue.str (if index = 0 then "leaf" else "intermediate")),
   ("sha256Fingerprint", LogValue.str (hexEncodeToString (sha256Sum cert.raw)))]

/-- Splits a character list at every dot, Go-`strings.Split` style: the
result always has one (possibly empty) piece more than there are dots. -/
def splitDots : List Char → List (List Char)
  | [] => [[]]
  | c :: rest =>
    if c = '.' then [] :: splitDots rest
    else
      match splitDots rest with
      | [] => [[c]]
      | l :: ls => (c :: l) :: ls

/-- A character allowed inside an RFC-1123 hostname label. -/
def hostChar (c : Char) : Bool := c.isAlpha || c.isDigit || c = '-'

/-- A character allowed at the edges of an RFC-1123 hostname label. -/
def hostEdgeChar (c : Char) : Bool := c.isAlpha || c.isDigit

/-- One RFC-1123 label: 1–63 characters, letters, digits and hyphens only,
first and last character not a hyphen. -/
def labelOk : List Char → Bool
  | [] => false
  | c :: cs =>
    (c :: cs).length ≤ 63 && (c :: cs).all hostChar &&
      hostEdgeChar c && hostEdgeChar ((c :: cs).getLast (List.cons_ne_nil c cs))

/-- A decimal IPv4 octet: one to three digits valued at most 255. -/
def octetOk (l : List Char) : Bool :=
  l ≠ [] && l.length ≤ 3 && l.all Char.isDigit

/-- A bare IPv4 literal: four dot-separated decimal octets. -/
def isIPv4Literal (s : String) : Bool :=
  match splitDots s.toList with
  | [a, b, c, d] => octetOk a && octetOk b && octetOk c && octetOk d
  | _ => false

/-- Modelled from the spec: the `hostname_rfc1123` check of the external
go-playground/validator library invoked by `Hostname.UnmarshalJSON`
(src/app/cfg/cfg.go lines 40–43), whose implementation is not under src/.
The spec describes it as "RFC-1123 host syntax; rejects bare IP literals,
embedded whitespace, leading hyphens, empty strings", and the repository's
own test table (src/app/cfg/cfg_test.go, TestHostname_UnmarshalJSON) fixes
exactly those cases: every dot-separated label is 1–63 letters, digits or
hyphens with no hyphen at either edge, and a string that is a bare IPv4
literal fails validation. -/
def hostnameRFC1123 (s : String) : Bool :=
  (splitDots s.toList).all labelOk && !isIPv4Literal s

/-- The validation error returned for a string rejected by the hostname check. -/
structure ValidationError where
  value : String
deriving Repr, DecidableEq

/-- Embeds `Hostname.UnmarshalJSON` from src/app/cfg/cfg.go lines 34–47,
after the `json.Unmarshal` string-decoding step (Go `encoding/json`,
external): validate the decoded string with `hostname_rfc1123`; on success
assign it to the receiver, otherwise return the validation error. -/
def Hostname.unmarshalJSON (decoded : String) : Except ValidationError Hostname :=
  if hostnameRFC1123 decoded then Except.ok decoded
  else Except.error ⟨decoded⟩

/-- An error from Go `time.ParseDuration` (external), abstract. -/
structure ParseError where
  msg : String
deriving Repr, DecidableEq

/-- An error from Go `encoding/json` string decoding (external), abstract. -/
structure JSONError where
  msg : String
deriving Repr, DecidableEq

/-- The error returned by `Duration.UnmarshalJSON`. -/
inductive DurationUnmarshalError where
  | json (e : JSONError)
  | parse (e : ParseError)
deriving Repr, DecidableEq

/-- Embeds `Duration.UnmarshalJSON` from src/app/cfg/cfg.go lines 49–57
(identically src/unnamed/part_000 lines 130–138).  The two steps external to
the repository are parameters: `decoded` is the result of the
`json.Unmarshal` string decode, and `parseDuration` is Go
`time.ParseDuration` (which returns the pair `(0, err)` on every failure).
`prev` is the receiver's value before the call; the returned pair is the
receiver's value after the call and the returned error.  The source assigns
`*d = Duration(dur)` before inspecting the parse error. -/
def Duration.unmarshalJSON (parseDuration : String → Duration × Option ParseError)
    (decoded : Except JSONError String) (prev : Duration) :
    Duration × Option DurationUnmarshalError :=
  match decoded with
  | Except.error e => (prev, some (DurationUnmarshalError.json e))
  | Except.ok s =>
    let parsed := parseDuration s
    (parsed.1, parsed.2.map DurationUnmarshalError.parse)

lemma collectLoop_no_deadline (evs : List Event) :
    ∀ (n : Nat) (rs : List nameAddressMap) (es : List DNSError),
      evs.length = n → (∀ e ∈ evs, e ≠ Event.deadline) →
      collectLoop evs n rs es =
        (rs ++ evs.filterMap eventMapping, none, es ++ evs.filterMap eventErr) := by
  induction evs with
  | nil =>
    intro n rs es hlen _
    subst hlen
    simp [collectLoop, eventMapping, eventErr]
  | cons e rest ih =>
    intro n rs es hlen hnd
    subst hlen
    match e with
    | Event.deadline => exact absurd rfl (hnd Event.deadline (List.mem_cons_self _ _))
    | Event.outcome (Outcome.success m) =>
      rw [show (Event.outcome (Outcome.success m) :: rest).length = rest.length + 1 from rfl]
      rw [show collectLoop (Event.outcome (Outcome.success m) :: rest) (rest.length + 1) rs es
            = collectLoop rest rest.length (rs ++ [m]) es from rfl]
      rw [ih rest.length (rs ++ [m]) es rfl (fun x hx => hnd x (List.mem_cons_of_mem _ hx))]
      simp [eventMapping, eventErr]
    | Event.outcome (Outcome.failure err) =>
      rw [show (Event.outcome (Outcome.failure err) :: rest).length = rest.length + 1 from rfl]
      rw [show collectLoop (Event.outcome (Outcome.failure err) :: rest) (rest.length + 1) rs es
            = collectLoop rest rest.length rs (es ++ [err]) from rfl]
      rw [ih rest.length rs (es ++ [err]) rfl (fun x hx => hnd x (List.mem_cons_of_mem _ hx))]
      simp [eventMapping, eventErr]

lemma collectLoop_deadline (evs : List Event) :
    ∀ (n i : Nat) (rs : List nameAddressMap) (es : List DNSError),
      i < n → evs.get? i = some Event.deadline →
      collectLoop evs n rs es = ([], some GoError.ctxDeadlineExceeded, []) := by
  induction evs with
  | nil => intro n i rs es _ hget; simp at hget
  | cons e rest ih =>
    intro n i rs es hin hget
    cases n with
    | zero => exact absurd hin (Nat.not_lt_zero i)
    | succ n =>
      cases i with
      | zero =>
        have he : e = Event.deadline := by simpa using hget
        subst he
        rfl
      | succ i =>
        have hget2 : rest.get? i = some Event.deadline := by simpa using hget
        have hin2 : i < n := Nat.lt_of_succ_lt_succ hin
        match e with
        | Event.deadline => rfl
        | Event.outcome (Outcome.success m) => exact ih n i (rs ++ [m]) es hin2 hget2
        | Event.outcome (Outcome.failure err) => exact ih n i rs (es ++ [err]) hin2 hget2

lemma collectLoop_error_cases (evs : List Event) :
    ∀ (n : Nat) (rs : List nameAddressMap) (es : List DNSError),
      (collectLoop evs n rs es).2.1 = none ∨
      (collectLoop evs n rs es).2.1 = some GoError.ctxDeadlineExceeded := by
  induction evs with
  | nil => intro n rs es; cases n <;> simp [collectLoop]
  | cons e rest ih =>
    intro n rs es
    cases n with
    | zero => simp [collectLoop]
    | succ n =>
      match e with
      | Event.deadline => right; rfl
      | Event.outcome (Outcome.success m) => exact ih n (rs ++ [m]) es
      | Event.outcome (Outcome.failure err) => exact ih n rs (es ++ [err])

lemma collectLoop_no_success (evs : List Event) :
    ∀ (n : Nat) (es : List DNSError),
      (∀ e ∈ evs, eventMapping e = none) →
      (collectLoop evs n [] es).1 = [] := by
  induction evs with
  | nil => intro n es _; cases n <;> simp [collectLoop]
  | cons e rest ih =>
    intro n es hns
    cases n with
    | zero => simp [collectLoop]
    | succ n =>
      match e with
      | Event.deadline => rfl
      | Event.outcome (Outcome.success m) =>
        have := hns (Event.outcome (Outcome.success m)) (List.mem_cons_self _ _)
        simp [eventMapping] at this
      | Event.outcome (Outcome.failure err) =>
        have : collectLoop (Event.outcome (Outcome.failure err) :: rest) (n + 1) [] es
            = collectLoop rest n [] (es ++ [err]) := rfl
        rw [this]
        exact ih n (es ++ [err]) (fun x hx => hns x (List.mem_cons_of_mem _ hx))

lemma revFold_addresses (r : Resolver) (l : List IPAddr) :
    ∀ init : List IP × List LogEvent × List String,
      (l.foldl (revStep r) init).1 = init.1 ++ l.map IPAddr.ip := by
  induction l with
  | nil => intro init; simp
  | cons a rest ih =>
    intro init
    rw [List.foldl_cons, ih]
    simp [revStep]

lemma worker_failure (r : Resolver) (h : Hostname) (e : DNSError)
    (hf : (r.lookupIPAddr h).2 = some e) :
    worker r h = ⟨Outcome.failure e, [], []⟩ := by
  simp only [worker, hf]

lemma worker_success_outcome (r : Resolver) (h : Hostname)
    (hs : (r.lookupIPAddr h).2 = none) :
    (worker r h).outcome = Outcome.success ⟨h, (r.lookupIPAddr h).1.map IPAddr.ip⟩ := by
  simp only [worker, hs]
  simp [revFold_addresses]

lemma length_filterMap_eq_countP (f : α → Option β) (l : List α) :
    (l.filterMap f).length = l.countP (fun x => (f x).isSome) := by
  induction l with
  | nil => simp
  | cons x rest ih =>
    cases hx : f x <;> simp [List.filterMap_cons, hx, List.countP_cons, ih]

lemma resolve_eq (hostnames : List Hostname) (evs : List Event) :
    resolve hostnames evs =
      match (collectLoop evs hostnames.length [] []).2.1 with
      | some e => ⟨[], some e, []⟩
      | none => ⟨(collectLoop evs hostnames.length [] []).1, none,
          endLogs (collectLoop evs hostnames.length [] []).1
            ((collectLoop evs hostnames.length [] []).2.2)⟩ := rfl

lemma eventMapping_outcome (o : Outcome) :
    eventMapping (Event.outcome o) = outcomeMapping o := by
  cases o <;> rfl

lemma eventErr_outcome (o : Outcome) :
    eventErr (Event.outcome o) = outcomeErr o := by
  cases o <;> rfl

lemma complete_no_deadline {r : Resolver} {hostnames : List Hostname} {evs : List Event}
    (hc : CompleteSchedule r hostnames evs) : ∀ e ∈ evs, e ≠ Event.deadline := by
  intro e he
  have hm : e ∈ (outcomesOf r hostnames).map Event.outcome := hc.mem_iff.mp he
  rcases List.mem_map.mp hm with ⟨o, _, rfl⟩
  intro hcon
  exact Event.noConfusion hcon

lemma complete_length {r : Resolver} {hostnames : List Hostname} {evs : List Event}
    (hc : CompleteSchedule r hostnames evs) : evs.length = hostnames.length := by
  have := hc.length_eq
  simpa [outcomesOf] using this

lemma complete_filterMap_mapping {r : Resolver} {hostnames : List Hostname} {evs : List Event}
    (hc : CompleteSchedule r hostnames evs) :
    (evs.filterMap eventMapping).Perm
      ((outcomesOf r hostnames).filterMap outcomeMapping) := by
  have hp := hc.filterMap eventMapping
  rw [List.filterMap_map] at hp
  have hfun : (eventMapping ∘ Event.outcome) = outcomeMapping := by
    funext o
    exact eventMapping_outcome o
  rw [hfun] at hp
  exact hp

lemma complete_filterMap_err {r : Resolver} {hostnames : List Hostname} {evs : List Event}
    (hc : CompleteSchedule r hostnames evs) :
    (evs.filterMap eventErr).Perm
      ((outcomesOf r hostnames).filterMap outcomeErr) := by
  have hp := hc.filterMap eventErr
  rw [List.filterMap_map] at hp
  have hfun : (eventErr ∘ Event.outcome) = outcomeErr := by
    funext o
    exact eventErr_outcome o
  rw [hfun] at hp
  exact hp

lemma resolve_of_complete {r : Resolver} {hostnames : List Hostname} {evs : List Event}
    (hc : CompleteSchedule r hostnames evs) :
    resolve hostnames evs = ⟨evs.filterMap eventMapping, none,
      endLogs (evs.filterMap eventMapping) (evs.filterMap eventErr)⟩ := by
  rw [resolve_eq,
    collectLoop_no_deadline evs hostnames.length [] [] (complete_length hc)
      (complete_no_deadline hc)]
  simp

lemma outcomes_all_success (r : Resolver) (hostnames : List Hostname)
    (hall : ∀ h ∈ hostnames, (r.lookupIPAddr h).2 = none) :
    (outcomesOf r hostnames).filterMap outcomeMapping
      = hostnames.map (fun h => ⟨h, (r.lookupIPAddr h).1.map IPAddr.ip⟩) := by
  simp only [outcomesOf]
  induction hostnames with
  | nil => rfl
  | cons h rest ih =>
    have h1 : (worker r h).outcome
        = Outcome.success ⟨h, (r.lookupIPAddr h).1.map IPAddr.ip⟩ :=
      worker_success_outcome r h (hall h (List.mem_cons_self _ _))
    have ihr := ih (fun x hx => hall x (List.mem_cons_of_mem _ hx))
    simp only [List.map_cons, List.filterMap_cons, h1]
    simp only [outcomeMapping]
    rw [ihr]

lemma outcomes_all_failure (r : Resolver) (hostnames : List Hostname)
    (hall : ∀ h ∈ hostnames, (r.lookupIPAddr h).2 ≠ none) :
    (outcomesOf r hostnames).filterMap outcomeMapping = [] ∧
    ((outcomesOf r hostnames).filterMap outcomeErr).length = hostnames.length := by
  simp only [outcomesOf]
  induction hostnames with
  | nil => exact ⟨rfl, rfl⟩
  | cons h rest ih =>
    rcases Option.ne_none_iff_exists.mp (hall h (List.mem_cons_self _ _)) with ⟨e, he⟩
    have h1 : (worker r h).outcome = Outcome.failure e := by
      rw [worker_failure r h e he.symm]
    have ihr := ih (fun x hx => hall x (List.mem_cons_of_mem _ hx))
    constructor
    · simp only [List.map_cons, List.filterMap_cons, h1]
      simp only [outcomeMapping]
      exact ihr.1
    · simp only [List.map_cons, List.filterMap_cons, h1]
      simp only [outcomeErr, List.length_cons]
      rw [ihr.2]

lemma worker_has_mapping_iff (r : Resolver) (h : Hostname) :
    (outcomeMapping (worker r h).outcome).isSome = !((r.lookupIPAddr h).2).isSome := by
  cases hl : (r.lookupIPAddr h).2 with
  | none => rw [worker_success_outcome r h hl]; rfl
  | some e => rw [worker_failure r h e hl]; rfl

lemma countP_not_eq_sub (p : α → Bool) (l : List α) :
    l.countP (fun a => !(p a)) = l.length - l.countP p := by
  induction l with
  | nil => rfl
  | cons x rest ih =>
    have hle := List.countP_le_length (p := p) (l := rest)
    by_cases hx : p x = true
    · simp [List.countP_cons, hx, ih, Nat.succ_sub_succ]
    · have hx2 : p x = false := by simpa using hx
      simp [List.countP_cons, hx2, ih]
      omega

/-- C1 (amended): if the collection loop observes the shared deadline (takes
the `ctx.Done()` branch) before all hostnames have reported, `resolve`
returns a deadline-exceeded error and a nil mapping set with no logging,
discarding any mappings already collected; and under an effectively-zero
timeout — where the expired context makes every forward lookup fail, so a
schedule can contain only failure outcomes and deadline observations —
`resolve` never returns any mappings, finishing with either a
deadline-exceeded error or an empty mapping set and a nil error. -/
theorem resolve_deadline_abort (hostnames : List Hostname) (evs : List Event) :
    ((∃ i, i < hostnames.length ∧ evs.get? i = some Event.deadline) →
      resolve hostnames evs = ⟨[], some GoError.ctxDeadlineExceeded, []⟩) ∧
    ((∀ e ∈ evs, zeroTimeoutEvent e = true) →
      (resolve hostnames evs).mappings = [] ∧
      ((resolve hostnames evs).error = none ∨
        (resolve hostnames evs).error = some GoError.ctxDeadlineExceeded)) := by
  constructor
  · rintro ⟨i, hi, hget⟩
    rw [resolve_eq, collectLoop_deadline evs hostnames.length i [] [] hi hget]
  · intro hz
    have hns : ∀ e ∈ evs, eventMapping e = none := by
      intro e he
      have hze := hz e he
      match e with
      | Event.deadline => rfl
      | Event.outcome (Outcome.success m) => simp [zeroTimeoutEvent] at hze
      | Event.outcome (Outcome.failure err) => rfl
    have h1 := collectLoop_no_success evs hostnames.length [] hns
    have h2 := collectLoop_error_cases evs hostnames.length [] []
    rw [resolve_eq]
    rcases h2 with h2 | h2
    · rw [h2]
      simp [h1]
    · rw [h2]
      simp

/-- C1 witness: a two-hostname pass whose schedule delivers one success and
then the deadline loses the collected mapping and reports deadline exceeded;
a zero-timeout schedule yields no mappings. -/
theorem resolve_deadline_abort_witness :
    resolve ["example.com", "test.com"]
        [Event.outcome (Outcome.success ⟨"example.com", ["93.184.216.34"]⟩),
         Event.deadline]
      = ⟨[], some GoError.ctxDeadlineExceeded, []⟩ ∧
    (resolve ["example.com"]
        [Event.outcome (Outcome.failure ⟨"context deadline exceeded"⟩)]).mappings
      = [] := by
  constructor
  · exact (resolve_deadline_abort _ _).1 ⟨1, by decide, rfl⟩
  · exact ((resolve_deadline_abort _ _).2 (by decide)).1

/-- C1 counterexample: the claim "with an effectively-zero timeout, resolve
returns a deadline-exceeded error" fails on the code.  With timeout 0 the
context is expired before the workers start, so each worker's
`LookupIPAddr` fails at once and sends on the `errors` channel; Go's
`select` chooses uniformly at random among ready branches, so the collection
loop may take the ready `errors` branch at every iteration instead of the
equally ready `ctx.Done()` branch.  On that realizable schedule — here one
hostname whose failure outcome is consumed at iteration 0 — `resolve`
returns an empty mapping set and a NIL error, not deadline exceeded. -/
theorem resolve_zero_timeout_counterexample :
    (∀ e ∈ [Event.outcome (Outcome.failure ⟨"context deadline exceeded"⟩)],
      zeroTimeoutEvent e = true) ∧
    resolve ["example.com"]
        [Event.outcome (Outcome.failure ⟨"context deadline exceeded"⟩)]
      = ⟨[], none,
          [LogEvent.allLookupsFailedWarn ⟨"context deadline exceeded"⟩,
           LogEvent.lookupErrorDebug ⟨"context deadline exceeded"⟩]⟩ ∧
    (resolve ["example.com"]
        [Event.outcome (Outcome.failure ⟨"context deadline exceeded"⟩)]).error
      ≠ some GoError.ctxDeadlineExceeded := by
  exact ⟨by decide, by rfl, by decide⟩

/-- C2: for every schedule, the only non-nil error `resolve` can return is
the shared-deadline `ctx.Err()` — a per-hostname DNS error value is never
propagated; and when every hostname's forward lookup fails and all failures
are collected before the deadline branch is taken, `resolve` returns an
empty mapping set and a nil error, warn-logging the first received failure
and debug-logging every failure. -/
theorem resolve_errors_absorbed (r : Resolver) (hostnames : List Hostname)
    (evs : List Event) :
    ((resolve hostnames evs).error = none ∨
      (resolve hostnames evs).error = some GoError.ctxDeadlineExceeded) ∧
    (CompleteSchedule r hostnames evs →
      (∀ h ∈ hostnames, (r.lookupIPAddr h).2 ≠ none) →
      hostnames ≠ [] →
      ∃ e es, evs.filterMap eventErr = e :: es ∧
        resolve hostnames evs =
          ⟨[], none, LogEvent.allLookupsFailedWarn e ::
            (e :: es).map LogEvent.lookupErrorDebug⟩) := by
  constructor
  · rw [resolve_eq]
    rcases collectLoop_error_cases evs hostnames.length [] [] with h2 | h2 <;>
      rw [h2] <;> simp
  · intro hc hfail hne
    have hmp := (complete_filterMap_mapping hc).trans
      (by rw [(outcomes_all_failure r hostnames hfail).1])
    have hms : evs.filterMap eventMapping = [] := List.Perm.eq_nil hmp
    have herrlen : (evs.filterMap eventErr).length = hostnames.length := by
      rw [(complete_filterMap_err hc).length_eq]
      exact (outcomes_all_failure r hostnames hfail).2
    have hpos : 0 < (evs.filterMap eventErr).length := by
      rw [herrlen]
      exact List.length_pos.mpr hne
    match hev : evs.filterMap eventErr with
    | [] => rw [hev] at hpos; simp at hpos
    | e :: es =>
      refine ⟨e, es, rfl, ?_⟩
      rw [resolve_of_complete hc, hms, hev]
      rfl

/-- C2 witness: two hostnames that both fail before the deadline is observed:
empty mapping set, nil error, warn log of the first received failure and
debug logs of both. -/
theorem resolve_errors_absorbed_witness :
    ∃ e es,
      [Event.outcome (Outcome.failure ⟨"no such host a"⟩),
        Event.outcome (Outcome.failure ⟨"no such host b"⟩)].filterMap eventErr
        = e :: es ∧
      resolve ["a.example", "b.example"]
          [Event.outcome (Outcome.failure ⟨"no such host a"⟩),
           Event.outcome (Outcome.failure ⟨"no such host b"⟩)]
        = ⟨[], none, LogEvent.allLookupsFailedWarn e ::
            (e :: es).map LogEvent.lookupErrorDebug⟩ := by
  exact (resolve_errors_absorbed
    ⟨fun h => ([], some ⟨"no such host " ++ (h.take 1)⟩), fun _ => ([], none)⟩
    ["a.example", "b.example"]
    [Event.outcome (Outcome.failure ⟨"no such host a"⟩),
     Event.outcome (Outcome.failure ⟨"no such host b"⟩)]).2
    (by unfold CompleteSchedule outcomesOf; decide) (by decide) (by decide)

/-- C3: when all N workers report before the deadline branch is taken and
exactly M of them (0 < M < N) fail forward lookup, `resolve` returns exactly
N − M mappings and a nil error: the M failures are dropped from the returned
set and not surfaced as an error. -/
theorem resolve_mixed_partial (r : Resolver) (hostnames : List Hostname)
    (evs : List Event) (M : Nat)
    (hc : CompleteSchedule r hostnames evs)
    (hM : hostnames.countP (fun h => ((r.lookupIPAddr h).2).isSome) = M)
    (hpos : 0 < M) (hlt : M < hostnames.length) :
    (resolve hostnames evs).mappings.length = hostnames.length - M ∧
    (resolve hostnames evs).error = none := by
  rw [resolve_of_complete hc]
  refine ⟨?_, rfl⟩
  rw [(complete_filterMap_mapping hc).length_eq,
    length_filterMap_eq_countP, outcomesOf, List.countP_map]
  have hfun : ((fun o => (outcomeMapping o).isSome) ∘ fun h => (worker r h).outcome)
      = fun h => !((r.lookupIPAddr h).2).isSome := by
    funext h
    exact worker_has_mapping_iff r h
  rw [hfun, countP_not_eq_sub, hM]

/-- C3 witness: three hostnames, one failing; the pass returns two mappings
and a nil error. -/
theorem resolve_mixed_partial_witness :
    (resolve ["a.example", "b.example", "c.example"]
        [Event.outcome (Outcome.failure ⟨"no such host"⟩),
         Event.outcome (Outcome.success ⟨"c.example", ["10.0.0.3"]⟩),
         Event.outcome (Outcome.success ⟨"a.example", ["10.0.0.1"]⟩)]).mappings.length
      = 3 - 1 ∧
    (resolve ["a.example", "b.example", "c.example"]
        [Event.outcome (Outcome.failure ⟨"no such host"⟩),
         Event.outcome (Outcome.success ⟨"c.example", ["10.0.0.3"]⟩),
         Event.outcome (Outcome.success ⟨"a.example", ["10.0.0.1"]⟩)]).error
      = none :=
  resolve_mixed_partial
    ⟨fun h =>
        if h = "a.example" then ([⟨"10.0.0.1", ""⟩], none)
        else if h = "c.example" then ([⟨"10.0.0.3", ""⟩], none)
        else ([], some ⟨"no such host"⟩),
      fun _ => ([], none)⟩
    ["a.example", "b.example", "c.example"]
    [Event.outcome (Outcome.failure ⟨"no such host"⟩),
     Event.outcome (Outcome.success ⟨"c.example", ["10.0.0.3"]⟩),
     Event.outcome (Outcome.success ⟨"a.example", ["10.0.0.1"]⟩)]
    1
    (by unfold CompleteSchedule outcomesOf; decide) (by decide) (by decide) (by decide)

/-- C4: when every worker reports a successful forward lookup before the
deadline branch is taken, `resolve` returns one mapping per input hostname
occurrence — the returned list is a permutation of the per-occurrence
mappings, so duplicates are not deduplicated — each mapping carrying exactly
the forward-resolved address list in resolver order (not deduplicated, not
sorted), with a nil error; and when the resolver returns a non-empty address
list for every hostname (as Go's `LookupIPAddr` does whenever it returns a
nil error), every returned mapping has a non-empty address list. -/
theorem resolve_all_success (r : Resolver) (hostnames : List Hostname)
    (evs : List Event)
    (hc : CompleteSchedule r hostnames evs)
    (hall : ∀ h ∈ hostnames, (r.lookupIPAddr h).2 = none) :
    (resolve hostnames evs).mappings.Perm
      (hostnames.map (fun h => ⟨h, (r.lookupIPAddr h).1.map IPAddr.ip⟩)) ∧
    (resolve hostnames evs).error = none ∧
    ((∀ h ∈ hostnames, (r.lookupIPAddr h).1 ≠ []) →
      ∀ m ∈ (resolve hostnames evs).mappings, m.IPAddresses ≠ []) := by
  have hperm : (resolve hostnames evs).mappings.Perm
      (hostnames.map (fun h => ⟨h, (r.lookupIPAddr h).1.map IPAddr.ip⟩)) := by
    rw [resolve_of_complete hc]
    exact (complete_filterMap_mapping hc).trans
      (by rw [outcomes_all_success r hostnames hall])
  refine ⟨hperm, by rw [resolve_of_complete hc], ?_⟩
  intro hne m hm
  have hm2 := hperm.mem_iff.mp hm
  rcases List.mem_map.mp hm2 with ⟨h, hh, rfl⟩
  simp only [ne_eq, List.map_eq_nil_iff]
  exact hne h hh

/-- C4 witness: two successful hostnames delivered out of order; the result
is a permutation of their per-occurrence mappings, nil error, each address
list non-empty. -/
theorem resolve_all_success_witness :
    (resolve ["a.example", "b.example"]
        [Event.outcome (Outcome.success ⟨"b.example", ["10.0.0.2", "10.0.0.9"]⟩),
         Event.outcome (Outcome.success ⟨"a.example", ["10.0.0.1"]⟩)]).mappings.Perm
      [⟨"a.example", ["10.0.0.1"]⟩, ⟨"b.example", ["10.0.0.2", "10.0.0.9"]⟩] ∧
    (resolve ["a.example", "b.example"]
        [Event.outcome (Outcome.success ⟨"b.example", ["10.0.0.2", "10.0.0.9"]⟩),
         Event.outcome (Outcome.success ⟨"a.example", ["10.0.0.1"]⟩)]).error = none ∧
    ∀ m ∈ (resolve ["a.example", "b.example"]
        [Event.outcome (Outcome.success ⟨"b.example", ["10.0.0.2", "10.0.0.9"]⟩),
         Event.outcome (Outcome.success ⟨"a.example", ["10.0.0.1"]⟩)]).mappings,
      m.IPAddresses ≠ [] := by
  have h := resolve_all_success
    ⟨fun h =>
        if h = "a.example" then ([⟨"10.0.0.1", ""⟩], none)
        else ([⟨"10.0.0.2", ""⟩, ⟨"10.0.0.9", ""⟩], none),
      fun _ => ([], none)⟩
    ["a.example", "b.example"]
    [Event.outcome (Outcome.success ⟨"b.example", ["10.0.0.2", "10.0.0.9"]⟩),
     Event.outcome (Outcome.success ⟨"a.example", ["10.0.0.1"]⟩)]
    (by unfold CompleteSchedule outcomesOf; decide) (by decide)
  exact ⟨h.1, h.2.1, h.2.2 (by decide)⟩

/-- C6: for the empty hostname list, `resolve` returns an empty mapping set,
a nil error and no log output whatever the scheduler does, and there are no
workers at all (`outcomesOf` is empty: no goroutine is launched and no
network operation performed). -/
theorem resolve_empty_hostnames :
    ∀ evs : List Event, resolve [] evs = ⟨[], none, []⟩ ∧
      ∀ r : Resolver, outcomesOf r [] = [] := by
  intro evs
  refine ⟨?_, fun r => rfl⟩
  have h0 : collectLoop evs 0 [] [] = ([], none, []) := by
    cases evs with
    | nil => rfl
    | cons e rest =>
      cases e with
      | deadline => rfl
      | outcome o => cases o <;> rfl
  rw [resolve_eq, show (List.length ([] : List Hostname)) = 0 from rfl, h0]
  rfl

/-- C5: reverse lookups never affect what `resolve` returns: a worker's
outcome is the same under any two reverse-lookup (`LookupAddr`) behaviors,
so the workers' outcome multiset — and with it the mapping set and error
that `resolve` produces from any realizable schedule — is independent of
reverse results and reverse failures; a success outcome carries only the
forward-resolved addresses (successful reverse results are logged, never
returned); and a worker whose forward lookup fails reports just the failure,
performing no reverse lookups and emitting no logs. -/
theorem resolve_reverse_lookup_independent
    (f : String → List IPAddr × Option DNSError)
    (g g2 : String → List String × Option DNSError) (h : Hostname) :
    ((worker ⟨f, g⟩ h).outcome = (worker ⟨f, g2⟩ h).outcome) ∧
    (∀ hostnames, outcomesOf ⟨f, g⟩ hostnames = outcomesOf ⟨f, g2⟩ hostnames) ∧
    (∀ hostnames evs, CompleteSchedule ⟨f, g⟩ hostnames evs →
      CompleteSchedule ⟨f, g2⟩ hostnames evs) ∧
    ((f h).2 = none →
      (worker ⟨f, g⟩ h).outcome = Outcome.success ⟨h, (f h).1.map IPAddr.ip⟩) ∧
    (∀ e, (f h).2 = some e →
      worker ⟨f, g⟩ h = ⟨Outcome.failure e, [], []⟩) := by
  have houtcome : ∀ h2 : Hostname, (worker ⟨f, g⟩ h2).outcome = (worker ⟨f, g2⟩ h2).outcome := by
    intro h2
    cases hl : ((⟨f, g⟩ : Resolver).lookupIPAddr h2).2 with
    | none =>
      rw [worker_success_outcome ⟨f, g⟩ h2 hl, worker_success_outcome ⟨f, g2⟩ h2 hl]
    | some e =>
      rw [worker_failure ⟨f, g⟩ h2 e hl, worker_failure ⟨f, g2⟩ h2 e hl]
  have hout : ∀ hostnames, outcomesOf ⟨f, g⟩ hostnames = outcomesOf ⟨f, g2⟩ hostnames := by
    intro hostnames
    unfold outcomesOf
    exact List.map_congr_left (fun x _ => houtcome x)
  refine ⟨houtcome h, hout, ?_, ?_, ?_⟩
  · intro hostnames evs hc
    unfold CompleteSchedule at hc ⊢
    rw [← hout hostnames]
    exact hc
  · intro hs
    exact worker_success_outcome ⟨f, g⟩ h hs
  · intro e he
    exact worker_failure ⟨f, g⟩ h e he

/-- C5 witness: under a resolver whose reverse lookups fail, a successful
worker still returns exactly the forward addresses, and a failing worker
issues no reverse queries. -/
theorem resolve_reverse_lookup_independent_witness :
    (worker ⟨fun _ => ([⟨"10.0.0.1", ""⟩], none), fun _ => ([], some ⟨"ptr fail"⟩)⟩
        "a.example").outcome
      = Outcome.success ⟨"a.example", ["10.0.0.1"]⟩ ∧
    worker ⟨fun _ => ([], some ⟨"no such host"⟩), fun _ => (["x"], none)⟩
        "b.example"
      = ⟨Outcome.failure ⟨"no such host"⟩, [], []⟩ := by
  constructor
  · exact (resolve_reverse_lookup_independent
      (fun _ => ([⟨"10.0.0.1", ""⟩], none))
      (fun _ => ([], some ⟨"ptr fail"⟩)) (fun _ => ([], none)) "a.example").2.2.2.1 rfl
  · exact (resolve_reverse_lookup_independent
      (fun _ => ([], some ⟨"no such host"⟩))
      (fun _ => (["x"], none)) (fun _ => ([], none)) "b.example").2.2.2.2
      ⟨"no such host"⟩ rfl

/-- C7: the resolver factory is pure construction: for every DNS server
address and timeout it returns a handle with `PreferGo` set (forcing the
process's own DNS implementation, never OS-level resolution), whose every
dial uses the configured timeout and dials the configured server address at
port 53 — ignoring the address the runtime asked it to dial. -/
theorem resolver_forces_go_dns (dnsServer : IP) (timeout : Duration)
    (network address : String) :
    (resolver dnsServer timeout).preferGo = true ∧
    (resolver dnsServer timeout).dial network address
      = ⟨timeout, network, joinHostPort dnsServer "53"⟩ ∧
    ∀ address2, (resolver dnsServer timeout).dial network address
      = (resolver dnsServer timeout).dial network address2 :=
  ⟨rfl, rfl, fun _ => rfl⟩

lemma hexDigit_mem (n : Nat) : hexDigit n ∈ hexTable := by
  unfold hexDigit
  cases hg : hexTable.get? n with
  | none => rw [List.getD_eq_getElem?_getD, ← List.get?_eq_getElem?, hg]; decide
  | some c =>
    rw [List.getD_eq_getElem?_getD, ← List.get?_eq_getElem?, hg]
    exact List.get?_mem hg

/-- C9: every per-certificate log record built by `handle` contains the
hostname, the resolved address, the chain index, and the lowercase-hex
SHA-256 fingerprint of the certificate's DER encoding, and its chain-position
label is "leaf" exactly when the index is 0 and "intermediate" otherwise;
every character of the fingerprint is drawn from the lowercase hex
alphabet. -/
theorem handle_logs_certificate_details (sha256Sum : List Nat → List Nat)
    (cert : Certificate) (index : Int) (hostname : Hostname) (ipAddress : IP) :
    (handle sha256Sum cert index hostname ipAddress).lookup "hostname"
      = some (LogValue.host hostname) ∧
    (handle sha256Sum cert index hostname ipAddress).lookup "ipAddress"
      = some (LogValue.addr ipAddress) ∧
    (handle sha256Sum cert index hostname ipAddress).lookup "index"
      = some (LogValue.num index) ∧
    (handle sha256Sum cert index hostname ipAddress).lookup "sha256Fingerprint"
      = some (LogValue.str (hexEncodeToString (sha256Sum cert.raw))) ∧
    ((handle sha256Sum cert index hostname ipAddress).lookup "target"
        = some (LogValue.str "leaf") ↔ index = 0) ∧
    (index ≠ 0 → (handle sha256Sum cert index hostname ipAddress).lookup "target"
        = some (LogValue.str "intermediate")) ∧
    ∀ ch ∈ (hexEncodeToString (sha256Sum cert.raw)).toList, ch ∈ hexTable := by
  refine ⟨rfl, rfl, rfl, rfl, ?_, ?_, ?_⟩
  · by_cases hi : index = 0
    · subst hi
      simp [handle, List.lookup]
    · simp [handle, List.lookup, hi]
  · intro hi
    simp [handle, List.lookup, hi]
  · intro ch hch
    have hch2 : ch ∈ (sha256Sum cert.raw).flatMap
        (fun b => [hexDigit (b / 16), hexDigit (b % 16)]) := hch
    rcases List.mem_flatMap.mp hch2 with ⟨b, _, hb⟩
    simp only [List.mem_cons, List.not_mem_nil, or_false] at hb
    rcases hb with h1 | h1 <;> (subst h1; exact hexDigit_mem _)

/-- C9 witness: a concrete digest at index 1 is labelled intermediate with a
lowercase fingerprint. -/
theorem handle_logs_certificate_details_witness :
    (handle (fun _ => [0, 171, 255]) ⟨[48, 130]⟩ 1 "example.com" "10.0.0.1").lookup "target"
      = some (LogValue.str "intermediate") ∧
    (handle (fun _ => [0, 171, 255]) ⟨[48, 130]⟩ 1 "example.com" "10.0.0.1").lookup "sha256Fingerprint"
      = some (LogValue.str "00abff") := by
  constructor
  · exact (handle_logs_certificate_details (fun _ => [0, 171, 255]) ⟨[48, 130]⟩ 1
      "example.com" "10.0.0.1").2.2.2.2.2.1 (by decide)
  · have h := (handle_logs_certificate_details (fun _ => [0, 171, 255]) ⟨[48, 130]⟩ 1
      "example.com" "10.0.0.1").2.2.2.1
    rw [h]
    rfl

lemma splitDots_ne_nil (l : List Char) : splitDots l ≠ [] := by
  cases l with
  | nil => simp [splitDots]
  | cons c rest =>
    simp only [splitDots]
    by_cases hc : c = '.'
    · simp [hc]
    · rw [if_neg hc]
      cases hsd : splitDots rest <;> simp

lemma mem_splitDots (l : List Char) (c : Char) (hc : c ∈ l) :
    c = '.' ∨ ∃ p ∈ splitDots l, c ∈ p := by
  induction l with
  | nil => cases hc
  | cons x rest ih =>
    by_cases hx : x = '.'
    · rcases List.mem_cons.mp hc with hceq | hmem
      · left; rw [hceq]; exact hx
      · rcases ih hmem with h | ⟨p, hp, hcp⟩
        · left; exact h
        · right
          refine ⟨p, ?_, hcp⟩
          simp only [splitDots, if_pos hx]
          exact List.mem_cons_of_mem _ hp
    · have hne := splitDots_ne_nil rest
      rcases hsd : splitDots rest with _ | ⟨p0, ps⟩
      · exact absurd hsd hne
      · have hrepr : splitDots (x :: rest) = (x :: p0) :: ps := by
          simp only [splitDots, if_neg hx, hsd]
        rcases List.mem_cons.mp hc with hceq | hmem
        · subst hceq
          exact Or.inr ⟨c :: p0, by rw [hrepr]; exact List.mem_cons_self _ _,
            List.mem_cons_self _ _⟩
        · rcases ih hmem with h | ⟨p, hp, hcp⟩
          · left; exact h
          · right
            rw [hsd] at hp
            rcases List.mem_cons.mp hp with rfl | hps
            · exact ⟨x :: p, by rw [hrepr]; exact List.mem_cons_self _ _,
                List.mem_cons_of_mem _ hcp⟩
            · exact ⟨p, by rw [hrepr]; exact List.mem_cons_of_mem _ hps, hcp⟩

lemma labelOk_false_of_bad_char (p : List Char) (c : Char) (hcp : c ∈ p)
    (hbad : hostChar c = false) : labelOk p = false := by
  cases p with
  | nil => rfl
  | cons c0 cs =>
    have hall : (c0 :: cs).all hostChar = false :=
      Bool.eq_false_iff.mpr (fun hcon => by
        have := List.all_eq_true.mp hcon c hcp
        rw [hbad] at this
        cases this)
    simp [labelOk, hall]

lemma rfc1123_false_of_bad_char (s : String) (c : Char) (hc : c ∈ s.toList)
    (hbad : hostChar c = false) (hdot : c ≠ '.') : hostnameRFC1123 s = false := by
  rcases mem_splitDots s.toList c hc with h | ⟨p, hp, hcp⟩
  · exact absurd h hdot
  · have hlabel := labelOk_false_of_bad_char p c hcp hbad
    have hall : (splitDots s.toList).all labelOk = false :=
      Bool.eq_false_iff.mpr (fun hcon => by
        have := List.all_eq_true.mp hcon p hp
        rw [hlabel] at this
        cases this)
    unfold hostnameRFC1123
    rw [hall, Bool.false_and]

lemma whitespace_not_hostChar (c : Char) (hw : c.isWhitespace = true) :
    hostChar c = false := by
  simp only [Char.isWhitespace] at hw
  simp only [decide_eq_true_eq, Bool.or_eq_true] at hw
  rcases hw with ((h | h) | h) | h <;> (subst h; decide)

lemma labelOk_cons_hyphen (p : List Char) : labelOk ('-' :: p) = false := by
  have h : hostEdgeChar '-' = false := by decide
  simp [labelOk, h]

lemma rfc1123_false_of_leading_hyphen (s : String) (rest : List Char)
    (hs : s.toList = '-' :: rest) : hostnameRFC1123 s = false := by
  have hne := splitDots_ne_nil rest
  rcases hsd : splitDots rest with _ | ⟨p0, ps⟩
  · exact absurd hsd hne
  · have hrepr : splitDots s.toList = ('-' :: p0) :: ps := by
      rw [hs]
      simp only [splitDots, if_neg (by decide : ¬('-' = '.')), hsd]
    have hall : (splitDots s.toList).all labelOk = false := by
      rw [hrepr]
      simp [labelOk_cons_hyphen p0]
    unfold hostnameRFC1123
    rw [hall, Bool.false_and]

/-- C8: hostname unmarshalling accepts exactly the strings the RFC-1123 host
check admits and, in particular, rejects the empty string, any string with
embedded whitespace, any string with a leading hyphen, and any bare IPv4
literal. -/
theorem hostname_unmarshal_accepts_rfc1123 (s : String) :
    (Hostname.unmarshalJSON s = Except.ok s ↔ hostnameRFC1123 s = true) ∧
    (s = "" → ∃ err, Hostname.unmarshalJSON s = Except.error err) ∧
    ((∃ c ∈ s.toList, c.isWhitespace = true) →
      ∃ err, Hostname.unmarshalJSON s = Except.error err) ∧
    (s.toList.head? = some '-' →
      ∃ err, Hostname.unmarshalJSON s = Except.error err) ∧
    (isIPv4Literal s = true →
      ∃ err, Hostname.unmarshalJSON s = Except.error err) := by
  refine ⟨?_, ?_, ?_, ?_, ?_⟩
  · by_cases hch : hostnameRFC1123 s = true
    · simp [Hostname.unmarshalJSON, hch]
    · have hch2 : hostnameRFC1123 s = false := Bool.eq_false_iff.mpr hch
      simp [Hostname.unmarshalJSON, hch2]
  · rintro rfl
    exact ⟨⟨""⟩, by rfl⟩
  · rintro ⟨c, hc, hw⟩
    have hdot : c ≠ '.' := fun hcon => by
      rw [hcon] at hw
      cases hw
    have hfalse := rfc1123_false_of_bad_char s c hc (whitespace_not_hostChar c hw) hdot
    exact ⟨⟨s⟩, by simp [Hostname.unmarshalJSON, hfalse]⟩
  · intro hhead
    rcases hl : s.toList with _ | ⟨c0, rest⟩
    · rw [hl] at hhead
      cases hhead
    · rw [hl] at hhead
      have hc0 : c0 = '-' := by simpa using hhead
      subst hc0
      have hfalse := rfc1123_false_of_leading_hyphen s rest hl
      exact ⟨⟨s⟩, by simp [Hostname.unmarshalJSON, hfalse]⟩
  · intro hip
    have hfalse : hostnameRFC1123 s = false := by
      simp [hostnameRFC1123, hip]
    exact ⟨⟨s⟩, by simp [Hostname.unmarshalJSON, hfalse]⟩

/-- C8 witness: "example.com" is accepted; the empty string, an embedded
space, a leading hyphen and a bare IPv4 literal are rejected. -/
theorem hostname_unmarshal_accepts_rfc1123_witness :
    Hostname.unmarshalJSON "example.com" = Except.ok "example.com" ∧
    (∃ err, Hostname.unmarshalJSON "" = Except.error err) ∧
    (∃ err, Hostname.unmarshalJSON "exa mple.com" = Except.error err) ∧
    (∃ err, Hostname.unmarshalJSON "-example.com" = Except.error err) ∧
    (∃ err, Hostname.unmarshalJSON "192.168.1.1" = Except.error err) := by
  refine ⟨?_, ?_, ?_, ?_, ?_⟩
  · exact (hostname_unmarshal_accepts_rfc1123 "example.com").1.mpr (by decide)
  · exact (hostname_unmarshal_accepts_rfc1123 "").2.1 rfl
  · exact (hostname_unmarshal_accepts_rfc1123 "exa mple.com").2.2.1 ⟨' ', by decide, by decide⟩
  · exact (hostname_unmarshal_accepts_rfc1123 "-example.com").2.2.2.1 (by decide)
  · exact (hostname_unmarshal_accepts_rfc1123 "192.168.1.1").2.2.2.2 (by decide)

/-- C10: `Duration.UnmarshalJSON` assigns the parsed value to the receiver
before inspecting the parse error, so on an invalid duration string — where
Go `time.ParseDuration` returns the pair of the zero duration and an error —
it both returns a non-nil error and overwrites the receiver with the zero
duration; a previously non-zero receiver is not left unchanged. -/
theorem duration_unmarshal_overwrites_on_error
    (parseDuration : String → Duration × Option ParseError) (s : String)
    (prev : Duration) (e : ParseError)
    (hparse : parseDuration s = (0, some e)) :
    Duration.unmarshalJSON parseDuration (Except.ok s) prev
      = (0, some (DurationUnmarshalError.parse e)) ∧
    (prev ≠ 0 → (Duration.unmarshalJSON parseDuration (Except.ok s) prev).1 ≠ prev) := by
  constructor
  · simp [Duration.unmarshalJSON, hparse]
  · intro hprev
    simp only [Duration.unmarshalJSON, hparse]
    exact fun hcon => hprev hcon.symm

/-- C10 witness: unmarshalling the invalid duration string "abc" over a
receiver holding 5 returns an error and leaves the receiver overwritten
with 0. -/
theorem duration_unmarshal_overwrites_on_error_witness :
    Duration.unmarshalJSON (fun _ => (0, some ⟨"invalid duration abc"⟩))
        (Except.ok "abc") 5
      = (0, some (DurationUnmarshalError.parse ⟨"invalid duration abc"⟩)) ∧
    (Duration.unmarshalJSON (fun _ => (0, some ⟨"invalid duration abc"⟩))
        (Except.ok "abc") 5).1 ≠ 5 := by
  have h := duration_unmarshal_overwrites_on_error
    (fun _ => (0, some ⟨"invalid duration abc"⟩)) "abc" 5 ⟨"invalid duration abc"⟩ rfl
  exact ⟨h.1, h.2 (by decide)⟩
